import Mathlib

/-!
# Verification of the OLDP content-processing pipeline

Shallow embedding of `oldp/apps/processing/content_processor.py` (classes
`InputHandler`, `InputHandlerFS`, `ContentProcessor`) and of
`oldp/apps/cases/management/commands/process_cases.py` (`Command.handle`),
together with proofs about the behaviour of the embedded operations.

Python exceptions are modelled with `Except`/`Option`, Python lists with
`List`, the `available_processing_steps` dict with an association list
(insertion order preserved, keys unique), and the filesystem with an
explicit finite structure `FS`.  A filesystem path is represented by its
list of `/`-separated components (`Path`), so the Python string
`"d/sub/b"` is the Lean value `["d", "sub", "b"]`.
-/

namespace Oldp

/-- A filesystem path, as its list of `/`-separated components. -/
abbrev Path : Type := List String

/-- Model of `oldp.apps.processing.errors.ProcessingError`: an exception
carrying a message string. -/
structure ProcessingError where
  msg : String
deriving DecidableEq, Repr

/-- A processing step (`BaseProcessingStep`): its `process` method maps a
content unit to a content unit or raises a `ProcessingError`.  The content
unit type is a parameter `α` (the pipeline treats units as opaque). -/
structure Step (α : Type) where
  process : α → Except ProcessingError α

/-- A post-processing sink: its `process` method receives a whole batch and
either succeeds (`none`) or raises a `ProcessingError` (`some e`). -/
structure Sink (α : Type) where
  process : List α → Option ProcessingError

/-! ## String and path ordering (model of Python comparison)

Python compares strings by code points; `Char.toNat` is the code point. -/

/-- Code-point-wise strict comparison of character lists. -/
def charListLt : List Char → List Char → Bool
  | [], [] => false
  | [], _ :: _ => true
  | _ :: _, [] => false
  | a :: as, b :: bs =>
    if a.toNat < b.toNat then true
    else if b.toNat < a.toNat then false
    else charListLt as bs

/-- Python `<` on strings. -/
def strLt (a b : String) : Bool := charListLt a.data b.data

/-- Lexicographic strict comparison of paths, matching Python's `<` on the
corresponding `/`-joined strings (components never contain `/`). -/
def pathLt : List String → List String → Bool
  | [], [] => false
  | [], _ :: _ => true
  | _ :: _, [] => false
  | a :: as, b :: bs =>
    if strLt a b then true
    else if strLt b a then false
    else pathLt as bs

/-- Insert a path into a sorted list, keeping it sorted: helper for the
model of Python's `sorted(...)`. -/
def insertSorted (x : Path) : List Path → List Path
  | [] => [x]
  | y :: ys => if pathLt y x then y :: insertSorted x ys else x :: y :: ys

/-- Model of Python `sorted(...)` on paths (insertion sort). -/
def sortPaths (xs : List Path) : List Path :=
  xs.foldr insertSorted []

/-! ## Filesystem model (for `InputHandlerFS`)

The filesystem is a finite set of file paths and directory paths. -/

/-- A finite filesystem: the full paths of all files and all directories.
Hidden entries (a component starting with `.`) are excluded from the
model, since `glob` never matches them. -/
structure FS where
  files : List Path
  dirs : List Path

/-- `os.path.isfile`. -/
def FS.isfile (fs : FS) (p : Path) : Bool := fs.files.contains p

/-- `os.path.isdir`. -/
def FS.isdir (fs : FS) (p : Path) : Bool := fs.dirs.contains p

/-- `p` is a direct child of directory `d`: it extends `d` by exactly one
component.  This is what the glob pattern `d + '/*'` matches (one level
only: `*` never crosses a `/`; the `recursive=True` flag only affects `**`
patterns, which the fixed `dir_selector = '/*'` does not contain). -/
def isDirectChild (d p : Path) : Bool :=
  List.length p = List.length d + 1 && List.take (List.length d) p = d

/-- Model of `glob.glob(d + self.dir_selector, recursive=True)` with
`dir_selector = '/*'`: every filesystem entry (file or directory) that is a
direct child of `d`.  The OS returns these in unspecified order; the caller
sorts them. -/
def FS.glob (fs : FS) (d : Path) : List Path :=
  (fs.files ++ fs.dirs).filter (isDirectChild d)

/-- The Python value held in `input_selector`: a string (here: a path), a
list of nested selectors, or any other value (e.g. `None` inside a list, a
number, ...), which the `isinstance` checks in the source both reject. -/
inductive Selector where
  | str (p : Path)
  | list (ss : List Selector)
  | other
deriving Repr

mutual

/-- `InputHandlerFS.get_input_content_from_selector`: a string selector that
is a directory expands to the sorted glob of its direct children; a string
selector that is a file is used as-is; a list selector concatenates the
resolutions of its elements in list order; anything else contributes the
empty list. -/
def get_input_content_from_selector (fs : FS) : Selector → List Path
  | .str p =>
    if fs.isdir p then sortPaths (fs.glob p)
    else if fs.isfile p then [p]
    else []
  | .list ss => get_input_content_from_selector_list fs ss
  | .other => []

/-- The `for s in selector: content.extend(...)` loop over a list selector. -/
def get_input_content_from_selector_list (fs : FS) : List Selector → List Path
  | [] => []
  | s :: rest =>
      get_input_content_from_selector fs s
        ++ get_input_content_from_selector_list fs rest

end

mutual

/-- A printable form of a selector, standing in for Python's
`'%s' % self.input_selector` interpolation in the empty-input message. -/
def Selector.reprStr : Selector → String
  | .str p => "/".intercalate p
  | .list ss => "[" ++ Selector.reprStrList ss ++ "]"
  | .other => "<other>"

/-- Comma-separated rendering of a selector list. -/
def Selector.reprStrList : List Selector → String
  | [] => ""
  | [s] => Selector.reprStr s
  | s :: rest => Selector.reprStr s ++ ", " ++ Selector.reprStrList rest

end

/-- The error raised when `input_selector` is unset (`EmptySelector`). -/
def emptySelectorError : ProcessingError :=
  ⟨"input_selector is not set"⟩

/-- The error raised when the resolved, offset-sliced key list is empty
(`EmptyInput`). -/
def emptyInputError (sel : Selector) : ProcessingError :=
  ⟨"Input selector is empty: " ++ sel.reprStr⟩

/-- `InputHandlerFS.get_input`: raises `EmptySelector` when the selector is
unset; resolves the selector, drops `input_start` entries, raises
`EmptyInput` when the remainder is empty, and finally keeps at most
`input_limit` entries when `input_limit > 0` (`limit ≤ 0` = unbounded).
`limit` is an `Int` as in Python; `start` is a natural number (the
configuration surface requires `start ≥ 0`). -/
def get_input (fs : FS) (selector : Option Selector) (limit : Int)
    (start : Nat) : Except ProcessingError (List Path) :=
  match selector with
  | none => .error emptySelectorError
  | some sel =>
    let contentList := (get_input_content_from_selector fs sel).drop start
    if contentList.length < 1 then .error (emptyInputError sel)
    else if limit > 0 then .ok (contentList.take limit.toNat)
    else .ok contentList

/-! ## Processing steps (`ContentProcessor.call_processing_steps`,
`ContentProcessor.set_processing_steps`) -/

/-- `ContentProcessor.call_processing_steps`: the
`for step in self.processing_steps: try: content = step.process(content)
except ProcessingError as e: self.processing_errors.append(e)` loop.
Takes the current content and the current `processing_errors` list and
returns the final content together with the final error list. -/
def call_processing_steps {α : Type} :
    List (Step α) → α → List ProcessingError → α × List ProcessingError
  | [], c, errs => (c, errs)
  | s :: rest, c, errs =>
    match s.process c with
    | .ok c' => call_processing_steps rest c' errs
    | .error e => call_processing_steps rest c (errs ++ [e])

/-- The content produced by the step loop: each step transforms the content;
a step that raises leaves the content as it was before that step. -/
def applySteps {α : Type} (steps : List (Step α)) (c : α) : α :=
  steps.foldl (fun c s => match s.process c with | .ok c' => c' | .error _ => c) c

/-- The errors produced by the step loop on content `c`, in step order. -/
def stepErrors {α : Type} : List (Step α) → α → List ProcessingError
  | [], _ => []
  | s :: rest, c =>
    match s.process c with
    | .ok c' => stepErrors rest c'
    | .error e => e :: stepErrors rest c

/-- The `available_processing_steps` dict: an association list from step
name to step, in registry insertion order, with unique keys. -/
def Registry (α : Type) : Type := List (String × Step α)

/-- Dict lookup `self.available_processing_steps[step]` /
`step in self.available_processing_steps`. -/
def lookupStep {α : Type} (avail : Registry α) (name : String) : Option (Step α) :=
  (avail.find? (fun p => p.1 == name)).map Prod.snd

/-- The `for step in step_list` selection loop of `set_processing_steps`:
append the registered step for each requested name in request order, or
raise on the first name missing from the registry. -/
def selectSteps {α : Type} (avail : Registry α) :
    List String → List (Step α) → Except ProcessingError (List (Step α))
  | [], acc => .ok acc
  | s :: rest, acc =>
    match lookupStep avail s with
    | some st => selectSteps avail rest (acc ++ [st])
    | none => .error ⟨"Requested step is not available: " ++ s⟩

/-- `ContentProcessor.set_processing_steps`: resets `processing_steps` to
`[]`; if the sentinel `'all'` is in the requested list the method *returns*
`available_processing_steps.values()` without assigning it, so the field
keeps the value `[]`; otherwise the selection loop fills the field (the
method then returns `None`).  The result is the pair
(new `processing_steps` field, Python return value), or the raised error. -/
def set_processing_steps {α : Type} (avail : Registry α) (stepList : List String) :
    Except ProcessingError (List (Step α) × Option (List (Step α))) :=
  if stepList.contains "all" then
    .ok ([], some (avail.map Prod.snd))
  else
    match selectSteps avail stepList [] with
    | .ok steps => .ok (steps, none)
    | .error e => .error e

/-! ## The pipeline controller (`ContentProcessor.process`) -/

/-- The mutable per-instance state of a `ContentProcessor` that the claims
are about: the two queues, the three error lists, and the four counters. -/
structure CPState (α : Type) where
  pre_processed_content : List α
  processed_content : List α
  pre_processing_errors : List ProcessingError
  processing_errors : List ProcessingError
  post_processing_errors : List ProcessingError
  file_counter : Nat
  file_failed_counter : Nat
  doc_counter : Nat
  doc_failed_counter : Nat
deriving DecidableEq, Repr

/-- The pre-processing loop of `ContentProcessor.process`:
`for input_content in keys: try: handle_input(input_content) except
ProcessingError as e: self.pre_processing_errors.append(e)`.
`handle_input` is abstract in the sources (the concrete subclass is not
part of them); following the spec's input-handler contract, a call either
appends one content unit to the handler's queue (`.ok (some u)`), records a
skip (`.ok none`), or raises (`.error e`).  Returns the handler's queue,
the updated error list, and the trace of keys for which `handle_input` was
invoked, in call order. -/
def preProcessLoop {α : Type} (handle_input : Path → Except ProcessingError (Option α)) :
    List Path → List α → List ProcessingError →
      List α × List ProcessingError × List Path
  | [], queue, errs => (queue, errs, [])
  | k :: ks, queue, errs =>
    let step :=
      match handle_input k with
      | .ok (some u) => preProcessLoop handle_input ks (queue ++ [u]) errs
      | .ok none => preProcessLoop handle_input ks queue errs
      | .error e => preProcessLoop handle_input ks queue (errs ++ [e])
    (step.1, step.2.1, k :: step.2.2)

/-- Modelled from the spec: `process_content` is abstract in
`ContentProcessor` (`raise NotImplementedError`) and its concrete subclass
is not among the sources.  The spec says it applies each selected step to
each pre-processed unit, in step order then item order (i.e. via
`call_processing_steps`), appends each completed unit to the processed
queue, and counts it in the document success counter. -/
def processContentLoop {α : Type} (steps : List (Step α)) :
    List α → List α → List ProcessingError → Nat →
      List α × List ProcessingError × Nat
  | [], processed, errs, docs => (processed, errs, docs)
  | u :: us, processed, errs, docs =>
    let r := call_processing_steps steps u errs
    processContentLoop steps us (processed ++ [r.1]) r.2 (docs + 1)

/-- The post-processing loop of `ContentProcessor.process`:
`for step in self.post_processing_steps: try: step.process(self.processed_content)
except ProcessingError as e: self.post_processing_errors.append(e)`.
Returns the updated error list and the trace of batches passed to the
sinks, one entry per `process` call, in call order. -/
def postProcessLoop {α : Type} :
    List (Sink α) → List α → List ProcessingError →
      List ProcessingError × List (List α)
  | [], _, errs => (errs, [])
  | s :: rest, queue, errs =>
    let errs' :=
      match s.process queue with
      | none => errs
      | some e => errs ++ [e]
    let r := postProcessLoop rest queue errs'
    (r.1, queue :: r.2)

/-- The per-run configuration of a controller: the input handler's data
(filesystem, selector, limit, start, `handle_input`), the selected
processing steps and the post-processing sinks. -/
structure RunCfg (α : Type) where
  fs : FS
  selector : Option Selector
  limit : Int
  start : Nat
  handle_input : Path → Except ProcessingError (Option α)
  steps : List (Step α)
  sinks : List (Sink α)

/-- `ContentProcessor.process`: resets the two queues to `[]`, calls
`get_input()` once (a `ProcessingError` raised there propagates), runs the
guarded `handle_input` loop, runs `process_content` (modelled from the
spec), and finally runs every post-processing sink on the whole processed
queue.  The error lists are only appended to, never reset. -/
def processRun {α : Type} (cfg : RunCfg α) (st : CPState α) :
    Except ProcessingError (CPState α) :=
  match get_input cfg.fs cfg.selector cfg.limit cfg.start with
  | .error e => .error e
  | .ok keys =>
    let pre := preProcessLoop cfg.handle_input keys [] st.pre_processing_errors
    let proc := processContentLoop cfg.steps pre.1 [] st.processing_errors st.doc_counter
    let post := postProcessLoop cfg.sinks proc.1 st.post_processing_errors
    .ok { pre_processed_content := pre.1
          processed_content := proc.1
          pre_processing_errors := pre.2.1
          processing_errors := proc.2.1
          post_processing_errors := post.1
          file_counter := st.file_counter
          file_failed_counter := st.file_failed_counter
          doc_counter := proc.2.2
          doc_failed_counter := st.doc_failed_counter }

/-- `Command.handle` of `process_cases.py`, restricted to what the claims
need: it configures the input handler, then calls
`set_processing_steps(options['step'])` — whose return value it discards —
and only if that does not raise does it call `process()`. -/
def commandHandle {α : Type} (avail : Registry α) (stepList : List String)
    (cfg : RunCfg α) (st : CPState α) : Except ProcessingError (CPState α) :=
  match set_processing_steps avail stepList with
  | .error e => .error e
  | .ok (steps, _) => processRun { cfg with steps := steps } st


/-! ## Derived definitions used in theorem statements -/

/-- The content units appended by the guarded `handle_input` loop: one unit
per key whose `handle_input` call succeeds and produces a unit, in key
order. -/
def preUnits {α : Type} (h : Path → Except ProcessingError (Option α))
    (keys : List Path) : List α :=
  keys.filterMap (fun k => match h k with | .ok o => o | .error _ => none)

/-- The errors recorded by the guarded `handle_input` loop: one entry per
key whose `handle_input` call raises, in key order. -/
def preErrsOf {α : Type} (h : Path → Except ProcessingError (Option α))
    (keys : List Path) : List ProcessingError :=
  keys.filterMap (fun k => match h k with | .ok _ => none | .error e => some e)

/-- The errors recorded by the post-processing loop: one entry per sink
whose `process` call on the batch raises, in sink order. -/
def sinkErrsOf {α : Type} (sinks : List (Sink α)) (queue : List α) :
    List ProcessingError :=
  sinks.filterMap (fun s => s.process queue)

/-- `true` on a raised exception. -/
def exceptIsError {ε σ : Type} : Except ε σ → Bool
  | .error _ => true
  | .ok _ => false

/-- The state a successful `process()` run leaves behind, as a function of
the configuration, the initial state and the keys returned by
`get_input()`. -/
def runResult {α : Type} (cfg : RunCfg α) (st : CPState α) (keys : List Path) :
    CPState α :=
  let units := preUnits cfg.handle_input keys
  let processed := units.map (applySteps cfg.steps)
  { pre_processed_content := units
    processed_content := processed
    pre_processing_errors := st.pre_processing_errors ++ preErrsOf cfg.handle_input keys
    processing_errors := st.processing_errors ++ units.flatMap (stepErrors cfg.steps)
    post_processing_errors := st.post_processing_errors ++ sinkErrsOf cfg.sinks processed
    file_counter := st.file_counter
    file_failed_counter := st.file_failed_counter
    doc_counter := st.doc_counter + units.length
    doc_failed_counter := st.doc_failed_counter }

/-- The number of entries matched by a selector (before slicing). -/
def totalMatches (fs : FS) (sel : Selector) : Nat :=
  (get_input_content_from_selector fs sel).length

/-- The resolved key list of a selector, sliced by
`[start : start + limit]` when `limit > 0` and by `[start:]` otherwise
(Python slice semantics). -/
def slicedInput (fs : FS) (sel : Selector) (limit : Int) (start : Nat) :
    List Path :=
  if 0 < limit then
    ((get_input_content_from_selector fs sel).drop start).take limit.toNat
  else (get_input_content_from_selector fs sel).drop start

/-! ## Concrete fixtures used by witnesses and counterexamples -/

/-- A step that always succeeds, incrementing a numeric content unit. -/
def stepOkNat : Step Nat := ⟨fun n => .ok (n + 1)⟩

/-- A step that always raises. -/
def stepFail : Step Nat := ⟨fun _ => .error ⟨"boom"⟩⟩

/-- A registry with one registered step, named `extract_refs`. -/
def availEx : Registry Nat := [("extract_refs", stepOkNat)]

/-- A sink that always raises. -/
def sinkFail : Sink Nat := ⟨fun _ => some ⟨"sink boom"⟩⟩

/-- A filesystem with the directory `in` holding the single file `in/f1`,
plus the tree `d`, `d/a` (file), `d/sub` (dir), `d/sub/b` (file) used for
the glob-depth analysis. -/
def fsEx : FS :=
  ⟨[["in", "f1"], ["d", "a"], ["d", "sub", "b"]], [["in"], ["d"], ["d", "sub"]]⟩

/-- A run configuration over `fsEx`: selector is the single file `in/f1`,
no limit, every key yields the unit `7`, no steps, one failing sink. -/
def cfgEx : RunCfg Nat :=
  { fs := fsEx
    selector := some (.str ["in", "f1"])
    limit := 0
    start := 0
    handle_input := fun _ => .ok (some 7)
    steps := []
    sinks := [sinkFail] }

/-- A fresh controller state (all queues, error lists and counters empty). -/
def st0 : CPState Nat := ⟨[], [], [], [], [], 0, 0, 0, 0⟩

/-! ## Characterizations of the loops -/

theorem call_processing_steps_eq {α : Type} (steps : List (Step α)) (c : α)
    (errs : List ProcessingError) :
    call_processing_steps steps c errs = (applySteps steps c, errs ++ stepErrors steps c) := by
  induction steps generalizing c errs with
  | nil => simp [call_processing_steps, applySteps, stepErrors]
  | cons s rest ih =>
    cases h : s.process c with
    | ok c' =>
      simp [call_processing_steps, applySteps, stepErrors, h, ih, List.foldl_cons]
    | error e =>
      simp [call_processing_steps, applySteps, stepErrors, h, ih, List.foldl_cons]

theorem applySteps_nil {α : Type} (c : α) : applySteps [] c = c := rfl

theorem applySteps_cons_ok {α : Type} (s : Step α) (rest : List (Step α)) (c c' : α)
    (h : s.process c = .ok c') : applySteps (s :: rest) c = applySteps rest c' := by
  simp [applySteps, h]

theorem applySteps_cons_error {α : Type} (s : Step α) (rest : List (Step α)) (c : α)
    (e : ProcessingError) (h : s.process c = .error e) :
    applySteps (s :: rest) c = applySteps rest c := by
  simp [applySteps, h]

theorem applySteps_append {α : Type} (a b : List (Step α)) (c : α) :
    applySteps (a ++ b) c = applySteps b (applySteps a c) := by
  simp [applySteps, List.foldl_append]

theorem stepErrors_append {α : Type} (a b : List (Step α)) (c : α) :
    stepErrors (a ++ b) c = stepErrors a c ++ stepErrors b (applySteps a c) := by
  induction a generalizing c with
  | nil => simp [stepErrors, applySteps]
  | cons s rest ih =>
    cases h : s.process c with
    | ok c' => simp [stepErrors, h, ih, applySteps_cons_ok s _ c c' h]
    | error e => simp [stepErrors, h, ih, applySteps_cons_error s _ c e h]

theorem preProcessLoop_eq {α : Type} (h : Path → Except ProcessingError (Option α))
    (keys : List Path) (queue : List α) (errs : List ProcessingError) :
    preProcessLoop h keys queue errs
      = (queue ++ preUnits h keys, errs ++ preErrsOf h keys, keys) := by
  induction keys generalizing queue errs with
  | nil => simp [preProcessLoop, preUnits, preErrsOf]
  | cons k ks ih =>
    cases hk : h k with
    | ok o =>
      cases o with
      | some u => simp [preProcessLoop, preUnits, preErrsOf, hk, ih]
      | none => simp [preProcessLoop, preUnits, preErrsOf, hk, ih]
    | error e => simp [preProcessLoop, preUnits, preErrsOf, hk, ih]

theorem preErrsOf_length {α : Type} (h : Path → Except ProcessingError (Option α))
    (keys : List Path) :
    (preErrsOf h keys).length = keys.countP (fun k => exceptIsError (h k)) := by
  induction keys with
  | nil => rfl
  | cons k ks ih =>
    unfold preErrsOf at ih ⊢
    rw [List.filterMap_cons, List.countP_cons]
    cases hk : h k with
    | ok o => simp [hk, ih, exceptIsError]
    | error e => simp [hk, ih, exceptIsError]

theorem postProcessLoop_eq {α : Type} (sinks : List (Sink α)) (queue : List α)
    (errs : List ProcessingError) :
    postProcessLoop sinks queue errs
      = (errs ++ sinkErrsOf sinks queue, sinks.map (fun _ => queue)) := by
  induction sinks generalizing errs with
  | nil => simp [postProcessLoop, sinkErrsOf]
  | cons s rest ih =>
    cases hs : s.process queue with
    | none => simp [postProcessLoop, sinkErrsOf, hs, ih]
    | some e => simp [postProcessLoop, sinkErrsOf, hs, ih]

theorem sinkErrsOf_length {α : Type} (sinks : List (Sink α)) (queue : List α) :
    (sinkErrsOf sinks queue).length
      = sinks.countP (fun s => (s.process queue).isSome) := by
  induction sinks with
  | nil => rfl
  | cons s rest ih =>
    unfold sinkErrsOf at ih ⊢
    rw [List.filterMap_cons, List.countP_cons]
    cases hs : s.process queue with
    | none => simp [hs, ih]
    | some e => simp [hs, ih]

theorem processContentLoop_eq {α : Type} (steps : List (Step α)) (us : List α)
    (processed : List α) (errs : List ProcessingError) (docs : Nat) :
    processContentLoop steps us processed errs docs
      = (processed ++ us.map (applySteps steps),
         errs ++ us.flatMap (stepErrors steps),
         docs + us.length) := by
  induction us generalizing processed errs docs with
  | nil => simp [processContentLoop]
  | cons u rest ih =>
    simp only [processContentLoop, call_processing_steps_eq, ih, List.map_cons,
      List.flatMap_cons, List.length_cons]
    simp [List.append_assoc, Nat.add_comm, Nat.add_left_comm]

theorem processRun_ok {α : Type} (cfg : RunCfg α) (st : CPState α) (keys : List Path)
    (h : get_input cfg.fs cfg.selector cfg.limit cfg.start = .ok keys) :
    processRun cfg st = .ok (runResult cfg st keys) := by
  simp [processRun, h, preProcessLoop_eq, processContentLoop_eq, postProcessLoop_eq,
    runResult]

theorem selector_list_append (fs : FS) (a b : List Selector) :
    get_input_content_from_selector_list fs (a ++ b)
      = get_input_content_from_selector_list fs a
        ++ get_input_content_from_selector_list fs b := by
  induction a with
  | nil => simp [get_input_content_from_selector_list]
  | cons s rest ih => simp [get_input_content_from_selector_list, ih]

theorem selectSteps_error_of_missing {α : Type} (avail : Registry α) :
    ∀ (stepList : List String), (∃ s ∈ stepList, lookupStep avail s = none) →
      ∀ acc, ∃ e, selectSteps avail stepList acc = .error e := by
  intro stepList
  induction stepList with
  | nil => intro h acc; simp at h
  | cons x rest ih =>
    intro h acc
    cases hx : lookupStep avail x with
    | none =>
      exact ⟨⟨"Requested step is not available: " ++ x⟩, by simp [selectSteps, hx]⟩
    | some st =>
      rcases h with ⟨s, hs, hnone⟩
      rcases List.mem_cons.mp hs with h1 | hmem
      · subst h1; rw [hx] at hnone; exact absurd hnone (by simp)
      · rcases ih ⟨s, hmem, hnone⟩ (acc ++ [st]) with ⟨e, he⟩
        exact ⟨e, by simp [selectSteps, hx, he]⟩

/-! ## Claims -/

/-- C1: the claim says that configuring the controller with a requested
step list containing the sentinel `all` makes the selected step list (the
one `call_processing_steps` iterates) the full registered set.  The code
instead resets `processing_steps` to `[]` and merely *returns* the
registry's values — a return value its only caller discards — so the
selected step list stays empty: this theorem evaluates
`set_processing_steps` on every sentinel-containing request and shows the
`processing_steps` component of the result is `[]`, the full set appearing
only in the discarded return value. -/
theorem set_processing_steps_all_leaves_selection_empty {α : Type}
    (avail : Registry α) (stepList : List String)
    (h : stepList.contains "all" = true) :
    set_processing_steps avail stepList = .ok ([], some (avail.map Prod.snd)) := by
  have hm : ("all" : String) ∈ stepList := by simpa using h
  simp [set_processing_steps, hm]

/-- Witness for C1's theorem at the failing input: the default request
`['all']` against a one-step registry selects no steps. -/
theorem set_processing_steps_all_leaves_selection_empty_witness :
    (["all"] : List String).contains "all" = true ∧
    set_processing_steps availEx ["all"] = .ok ([], some [stepOkNat]) :=
  ⟨by decide,
   set_processing_steps_all_leaves_selection_empty availEx ["all"] (by decide)⟩

/-- C2: `call_processing_steps` applies the configured steps in the
caller-requested order; if the step `s` (at position `length steps1`)
raises, its error is appended to the processing error list and the
remaining steps `steps2` are still applied to the content value exactly as
it was before `s` ran — the unit is not dropped. -/
theorem call_processing_steps_failure_isolation {α : Type}
    (steps1 steps2 : List (Step α)) (s : Step α) (c : α)
    (errs : List ProcessingError) (e : ProcessingError)
    (h : s.process (applySteps steps1 c) = .error e) :
    call_processing_steps (steps1 ++ s :: steps2) c errs
      = (applySteps steps2 (applySteps steps1 c),
         errs ++ stepErrors steps1 c ++ [e]
           ++ stepErrors steps2 (applySteps steps1 c)) := by
  rw [call_processing_steps_eq, applySteps_append, stepErrors_append]
  rw [applySteps_cons_error s steps2 _ e h]
  have hse : stepErrors (s :: steps2) (applySteps steps1 c)
      = e :: stepErrors steps2 (applySteps steps1 c) := by
    simp [stepErrors, h]
  rw [hse]
  simp [List.append_assoc]

/-- Witness for C2's theorem: a failing step between two succeeding steps,
on content `0` with one pre-existing error. -/
theorem call_processing_steps_failure_isolation_witness :
    stepFail.process (applySteps [stepOkNat] 0) = .error ⟨"boom"⟩ ∧
    call_processing_steps ([stepOkNat] ++ stepFail :: [stepOkNat]) 0 [⟨"prev"⟩]
      = (applySteps [stepOkNat] (applySteps [stepOkNat] 0),
         [⟨"prev"⟩] ++ stepErrors [stepOkNat] 0 ++ [⟨"boom"⟩]
           ++ stepErrors [stepOkNat] (applySteps [stepOkNat] 0)) :=
  ⟨rfl,
   call_processing_steps_failure_isolation [stepOkNat] [stepOkNat] stepFail 0
     [⟨"prev"⟩] ⟨"boom"⟩ rfl⟩

/-- C4: the guarded `handle_input` loop of `process()` invokes
`handle_input` for every key in enumeration order (third component: the
call trace is the whole key list), appends each unit produced by a
successful call to the pre-processed queue in that order (first
component), and appends each raised error to the pre-processing error list
(second component) while still calling `handle_input` for every subsequent
key. -/
theorem process_guarded_handle_input {α : Type}
    (h : Path → Except ProcessingError (Option α)) (keys : List Path)
    (queue : List α) (errs : List ProcessingError) :
    preProcessLoop h keys queue errs
      = (queue ++ preUnits h keys, errs ++ preErrsOf h keys, keys) :=
  preProcessLoop_eq h keys queue errs

/-- C5: the claim (and the code's own `Get all files recursive` comment)
says a directory selector expands to all files under it at any depth.  On
the tree `d`, `d/a` (file), `d/sub` (dir), `d/sub/b` (file), the resolver
returns only the direct children `d/a` and `d/sub` — the depth-2 file
`d/sub/b` is missing (and the directory `d/sub` itself is included). -/
theorem dir_selector_expands_one_level_only :
    fsEx.isfile ["d", "sub", "b"] = true ∧
    get_input_content_from_selector fsEx (.str ["d"]) = [["d", "a"], ["d", "sub"]] ∧
    (["d", "sub", "b"] : Path) ∉ get_input_content_from_selector fsEx (.str ["d"]) := by
  refine ⟨by decide, by decide, by decide⟩

/-- Counterexample to C6 as stated: the requested list `['all', 'bogus']`
contains the name `bogus`, which is absent from the registry, yet
`set_processing_steps` does not raise — the sentinel branch returns before
the validation loop runs. -/
theorem unknown_step_with_sentinel_not_fatal :
    lookupStep availEx "bogus" = none ∧
    ("bogus" : String) ∈ ["all", "bogus"] ∧
    set_processing_steps availEx ["all", "bogus"] = .ok ([], some [stepOkNat]) :=
  ⟨rfl, by decide, rfl⟩

/-- C6 (amended): for every requested step list *not containing the
sentinel `all`* that contains a name absent from the registry,
`set_processing_steps` raises a `ProcessingError` synchronously, and
`Command.handle` returns that error for every input configuration and
controller state — `process()` is never reached, so no input is read. -/
theorem unknown_step_aborts_before_processing {α : Type} (avail : Registry α)
    (stepList : List String)
    (hall : stepList.contains "all" = false)
    (hbad : ∃ s ∈ stepList, lookupStep avail s = none) :
    ∃ e, set_processing_steps avail stepList = .error e ∧
      ∀ (cfg : RunCfg α) (st : CPState α),
        commandHandle avail stepList cfg st = .error e := by
  rcases selectSteps_error_of_missing avail stepList hbad [] with ⟨e, he⟩
  have hn : ("all" : String) ∉ stepList := by simpa using hall
  refine ⟨e, ?_, ?_⟩
  · simp [set_processing_steps, hn, he]
  · intro cfg st
    simp [commandHandle, set_processing_steps, hn, he]

/-- Witness for C6's amended theorem: requesting the unknown step `bogus`
against a one-step registry. -/
theorem unknown_step_aborts_before_processing_witness :
    ∃ e, set_processing_steps availEx ["bogus"] = .error e ∧
      ∀ (cfg : RunCfg Nat) (st : CPState Nat),
        commandHandle availEx ["bogus"] cfg st = .error e :=
  unknown_step_aborts_before_processing availEx ["bogus"] (by decide)
    ⟨"bogus", by decide, rfl⟩

/-- C7: the post-processing loop passes the *entire* processed queue to
every configured sink in exactly one call each (the call trace is one
full-queue entry per sink, in order), a raised error is appended to the
post-processing error list — exactly one entry per failing sink — and
every subsequent sink is still invoked with the same full queue. -/
theorem post_processing_full_batch_isolation {α : Type} (sinks : List (Sink α))
    (queue : List α) (errs : List ProcessingError) :
    postProcessLoop sinks queue errs
      = (errs ++ sinkErrsOf sinks queue, sinks.map (fun _ => queue)) ∧
    (sinkErrsOf sinks queue).length
      = sinks.countP (fun s => (s.process queue).isSome) :=
  ⟨postProcessLoop_eq sinks queue errs, sinkErrsOf_length sinks queue⟩

/-- C3: `get_input` raises `EmptySelector` when the selector is unset;
raises `EmptyInput` exactly when the resolved, offset-and-limit-sliced key
list has zero entries; and otherwise returns that sliced list, whose
length is `min(limit, total_matches - start)` when `limit > 0` and
`total_matches - start` otherwise. -/
theorem get_input_slicing_spec (fs : FS) (limit : Int) (start : Nat) :
    get_input fs none limit start = .error emptySelectorError ∧
    ∀ sel : Selector,
      ((slicedInput fs sel limit start).length = 0 →
        get_input fs (some sel) limit start = .error (emptyInputError sel)) ∧
      ((slicedInput fs sel limit start).length ≠ 0 →
        get_input fs (some sel) limit start = .ok (slicedInput fs sel limit start) ∧
        (slicedInput fs sel limit start).length =
          (if 0 < limit then min limit.toNat (totalMatches fs sel - start)
           else totalMatches fs sel - start)) := by
  refine ⟨rfl, fun sel => ?_⟩
  have hlen : (slicedInput fs sel limit start).length =
      (if 0 < limit then min limit.toNat (totalMatches fs sel - start)
       else totalMatches fs sel - start) := by
    by_cases hl : 0 < limit <;>
      simp [slicedInput, hl, totalMatches, List.length_take, List.length_drop]
  have hdroplen : ((get_input_content_from_selector fs sel).drop start).length
      = totalMatches fs sel - start := by
    simp [totalMatches, List.length_drop]
  refine ⟨?_, ?_⟩
  · intro h0
    rw [hlen] at h0
    simp only [totalMatches] at h0
    have hz : (get_input_content_from_selector fs sel).length - start = 0 := by
      by_cases hl : 0 < limit
      · simp [hl] at h0
        omega
      · simpa [hl] using h0
    have hcond : ((get_input_content_from_selector fs sel).drop start).length < 1 := by
      simp only [List.length_drop]
      omega
    simp only [get_input]
    rw [if_pos hcond]
  · intro hne
    rw [hlen] at hne
    simp only [totalMatches] at hne
    have hpos : 0 < (get_input_content_from_selector fs sel).length - start := by
      by_cases hl : 0 < limit
      · simp [hl] at hne
        omega
      · simp [hl] at hne
        omega
    have hcond : ¬ ((get_input_content_from_selector fs sel).drop start).length < 1 := by
      simp only [List.length_drop]
      omega
    refine ⟨?_, hlen⟩
    by_cases hl : 0 < limit
    · simp only [get_input]
      rw [if_neg hcond, if_pos hl]
      simp [slicedInput, hl]
    · simp only [get_input]
      rw [if_neg hcond, if_neg hl]
      simp [slicedInput, hl]

/-- Witness for C3's theorem: on `fsEx`, an unset selector errors, and the
file selector `in/f1`'s parent directory `in` with `limit = 5`,
`start = 0` yields the single key `in/f1` with the claimed length. -/
theorem get_input_slicing_spec_witness :
    get_input fsEx none 5 0 = .error emptySelectorError ∧
    get_input fsEx (some (.str ["in"])) 5 0 = .ok [["in", "f1"]] ∧
    (slicedInput fsEx (.str ["in"]) 5 0).length
      = (if (0 : Int) < 5 then
           min (Int.toNat 5) (totalMatches fsEx (.str ["in"]) - 0)
         else totalMatches fsEx (.str ["in"]) - 0) := by
  have T := get_input_slicing_spec fsEx 5 0
  obtain ⟨ha, hb⟩ := (T.2 (.str ["in"])).2 (by decide)
  refine ⟨T.1, ?_, hb⟩
  have hs : slicedInput fsEx (.str ["in"]) 5 0 = [["in", "f1"]] := by decide
  rw [hs] at ha
  exact ha

/-- Counterexample to C8 as stated: a run over `cfgEx` in which the single
configured sink raises.  The failure is caught and appended (exactly one
entry, to the post-processing error list), but *neither* failure counter
is incremented — `file_failed_counter` and `doc_failed_counter` both stay
`0`, refuting "every failure caught during a run increments exactly one of
the failure counters". -/
theorem sink_failure_increments_no_counter :
    processRun cfgEx st0
      = .ok { pre_processed_content := [7]
              processed_content := [7]
              pre_processing_errors := []
              processing_errors := []
              post_processing_errors := [⟨"sink boom"⟩]
              file_counter := 0
              file_failed_counter := 0
              doc_counter := 1
              doc_failed_counter := 0 } := rfl

/-- C8 (amended): every failure caught during a run appends exactly one
entry to exactly one of the three error lists — `handle_input` failures to
the pre-processing list (one entry per failing key), step failures to the
processing list, sink failures to the post-processing list — no per-item
failure makes `process()` raise, and the catch sites leave the failure
counters (`file_failed_counter`, `doc_failed_counter`) unchanged. -/
theorem run_failures_recorded_without_counters {α : Type} (cfg : RunCfg α)
    (st : CPState α) (keys : List Path)
    (h : get_input cfg.fs cfg.selector cfg.limit cfg.start = .ok keys) :
    ∃ st', processRun cfg st = .ok st' ∧
      st'.pre_processing_errors
        = st.pre_processing_errors ++ preErrsOf cfg.handle_input keys ∧
      st'.processing_errors
        = st.processing_errors
          ++ (preUnits cfg.handle_input keys).flatMap (stepErrors cfg.steps) ∧
      st'.post_processing_errors
        = st.post_processing_errors
          ++ sinkErrsOf cfg.sinks
               ((preUnits cfg.handle_input keys).map (applySteps cfg.steps)) ∧
      (preErrsOf cfg.handle_input keys).length
        = keys.countP (fun k => exceptIsError (cfg.handle_input k)) ∧
      st'.file_failed_counter = st.file_failed_counter ∧
      st'.doc_failed_counter = st.doc_failed_counter :=
  ⟨runResult cfg st keys, processRun_ok cfg st keys h, rfl, rfl, rfl,
    preErrsOf_length _ keys, rfl, rfl⟩

/-- Witness for C8's amended theorem at the run `cfgEx` from state `st0`. -/
theorem run_failures_recorded_without_counters_witness :
    get_input cfgEx.fs cfgEx.selector cfgEx.limit cfgEx.start = .ok [["in", "f1"]] ∧
    (∃ st', processRun cfgEx st0 = .ok st' ∧
      st'.post_processing_errors
        = st0.post_processing_errors
          ++ sinkErrsOf cfgEx.sinks
               ((preUnits cfgEx.handle_input [["in", "f1"]]).map (applySteps cfgEx.steps)) ∧
      st'.file_failed_counter = st0.file_failed_counter ∧
      st'.doc_failed_counter = st0.doc_failed_counter) := by
  refine ⟨rfl, ?_⟩
  obtain ⟨st', h1, _, _, h4, _, h6, h7⟩ :=
    run_failures_recorded_without_counters cfgEx st0 [["in", "f1"]] rfl
  exact ⟨st', h1, h4, h6, h7⟩

/-- C9: running `process()` again is insensitive to whatever the queues
held before (they are reset to empty at the start of the run), while the
three error lists are only appended to: the initial error lists survive as
prefixes of the final ones, so errors accumulate across successive runs on
one controller instance. -/
theorem process_resets_queues_keeps_errors {α : Type} (cfg : RunCfg α)
    (st : CPState α) (q1 q2 : List α) :
    processRun cfg { st with pre_processed_content := q1, processed_content := q2 }
      = processRun cfg st ∧
    ∀ st', processRun cfg st = .ok st' →
      st.pre_processing_errors <+: st'.pre_processing_errors ∧
      st.processing_errors <+: st'.processing_errors ∧
      st.post_processing_errors <+: st'.post_processing_errors := by
  constructor
  · rfl
  · intro st' h
    cases hg : get_input cfg.fs cfg.selector cfg.limit cfg.start with
    | error e => simp [processRun, hg] at h
    | ok keys =>
      rw [processRun_ok cfg st keys hg] at h
      injection h with h2
      subst h2
      exact ⟨⟨_, rfl⟩, ⟨_, rfl⟩, ⟨_, rfl⟩⟩

/-- Witness for C9's theorem: a second run over `cfgEx` starting from
non-empty queues gives the same result as from empty queues, and the
initial error lists are prefixes of the final ones. -/
theorem process_resets_queues_keeps_errors_witness :
    (processRun cfgEx
        { st0 with pre_processed_content := [1], processed_content := [2] }
      = processRun cfgEx st0) ∧
    st0.pre_processing_errors
      <+: (runResult cfgEx st0 [["in", "f1"]]).pre_processing_errors := by
  have T := process_resets_queues_keeps_errors cfgEx st0 [1] [2]
  exact ⟨T.1,
    (T.2 (runResult cfgEx st0 [["in", "f1"]])
      (processRun_ok cfgEx st0 [["in", "f1"]] rfl)).1⟩

/-- C10: a string selector that names neither an existing file nor an
existing directory resolves to the empty list without raising (the
resolver is a total function into `List Path` — it has no error outcome
and touches no error list), as does a selector that is neither a string
nor a list; inside a list selector such an element contributes zero input
keys. -/
theorem nonexistent_selector_contributes_nothing (fs : FS) (p : Path)
    (hd : fs.isdir p = false) (hf : fs.isfile p = false) :
    get_input_content_from_selector fs (.str p) = [] ∧
    get_input_content_from_selector fs .other = [] ∧
    ∀ ss ts : List Selector,
      get_input_content_from_selector fs (.list (ss ++ Selector.str p :: ts))
        = get_input_content_from_selector fs (.list (ss ++ ts)) := by
  have h1 : get_input_content_from_selector fs (.str p) = [] := by
    simp [get_input_content_from_selector, hd, hf]
  refine ⟨h1, rfl, fun ss ts => ?_⟩
  simp [get_input_content_from_selector, selector_list_append,
    get_input_content_from_selector_list, hd, hf]

/-- Witness for C10's theorem: the path `nope` exists in `fsEx` neither as
file nor as directory; alone it resolves to `[]`, and inside a list
selector it contributes nothing. -/
theorem nonexistent_selector_contributes_nothing_witness :
    fsEx.isdir ["nope"] = false ∧ fsEx.isfile ["nope"] = false ∧
    get_input_content_from_selector fsEx (.str ["nope"]) = [] ∧
    get_input_content_from_selector fsEx
        (.list [Selector.str ["in", "f1"], Selector.str ["nope"]])
      = get_input_content_from_selector fsEx (.list [Selector.str ["in", "f1"]]) := by
  have T := nonexistent_selector_contributes_nothing fsEx ["nope"]
    (by decide) (by decide)
  exact ⟨by decide, by decide, T.1, T.2.2 [Selector.str ["in", "f1"]] []⟩

end Oldp
